import Mathlib

/-!
# Verification of the meshphone mesh-messaging core

A shallow embedding, in Lean 4, of the parts of the `meshphone` repository
that its specification makes claims about:

* `meshphone/core/energy.py`   — `EnergyTransaction`, `EnergyAccount.debit/credit`
* `meshphone/core/message.py`  — `MessageHeader`, `MessagePayload`, `Message`,
  cost/reward formulas, wire format, ACK synthesis
* `meshphone/core/routing.py`  — `Router.find_route` (BFS over a network view)
* `meshphone/core/node.py`     — `MeshNode.send_message` / `receive_message`
* `meshphone/crypto/onion.py`  — `OnionRouter.create_onion` / `peel_layer`

Python floats are modelled as rationals (`ℚ`), Python ints as `Int`/`Nat`,
Python byte strings as `List Nat`, dictionaries as association lists.
Nondeterministic inputs of the source (UUIDs, clock readings, random IVs)
are passed in as explicit arguments.
-/

namespace Meshphone

/-- Python's `round(x, 2)`: round to two decimal places, ties to even
(the float arguments are idealised as rationals). -/
def round2 (x : ℚ) : ℚ :=
  let y : ℚ := x * 100
  let f : ℤ := ⌊y⌋
  let r : ℚ := y - (f : ℚ)
  let n : ℤ :=
    if r < 1/2 then f
    else if 1/2 < r then f + 1
    else if f % 2 = 0 then f else f + 1
  (n : ℚ) / 100

/-! ## Energy ledger (`meshphone/core/energy.py`) -/

/-- `EnergyTransaction` from `energy.py`.  The source builds
`transaction_id = f"tx_{len(transactions)}"`; we keep the numeric index
`len(transactions)` (the string around it is constant). -/
structure EnergyTransaction where
  transaction_id : Nat
  timestamp : ℚ
  from_node : String
  to_node : String
  amount : ℚ
  reason : String
  message_id : Option String
deriving DecidableEq, Repr

/-- `EnergyAccount` from `energy.py` (dataclass fields in source order). -/
structure EnergyAccount where
  node_id : String
  balance : ℚ
  total_earned : ℚ
  total_spent : ℚ
  messages_sent : Nat
  messages_relayed : Nat
  messages_received : Nat
  transactions : List EnergyTransaction
  is_plugged_in : Bool
  relay_multiplier : ℚ
deriving DecidableEq, Repr

/-- A fresh account, as `EnergyAccount(node_id=…, balance=…, is_plugged_in=…)`
constructs one (all remaining fields take their dataclass defaults;
in particular `relay_multiplier` defaults to `1.0`). -/
def EnergyAccount.mk0 (node_id : String) (balance : ℚ) (is_plugged_in : Bool) :
    EnergyAccount :=
  { node_id := node_id
    balance := balance
    total_earned := 0
    total_spent := 0
    messages_sent := 0
    messages_relayed := 0
    messages_received := 0
    transactions := []
    is_plugged_in := is_plugged_in
    relay_multiplier := 1 }

/-- `EnergyAccount.can_afford`. -/
def EnergyAccount.can_afford (a : EnergyAccount) (amount : ℚ) : Bool :=
  amount ≤ a.balance

/-- `EnergyAccount.debit`.  The wall-clock reading `datetime.now().timestamp()`
is the explicit argument `now`.  Returns the Python return value together with
the updated account. -/
def EnergyAccount.debit (a : EnergyAccount) (amount : ℚ) (reason : String)
    (message_id : Option String) (now : ℚ) : Bool × EnergyAccount :=
  if ¬ a.can_afford amount then (false, a)
  else
    let a1 : EnergyAccount :=
      { a with
        balance := a.balance - amount
        total_spent := a.total_spent + amount
        messages_sent :=
          if reason = "send" then a.messages_sent + 1 else a.messages_sent }
    let tx : EnergyTransaction :=
      { transaction_id := a1.transactions.length
        timestamp := now
        from_node := a.node_id
        to_node := "network"
        amount := amount
        reason := reason
        message_id := message_id }
    (true, { a1 with transactions := a1.transactions ++ [tx] })

/-- `EnergyAccount.credit`.  The relay multiplier is applied to `amount`
before it is added and before the transaction is recorded, exactly as in the
source. -/
def EnergyAccount.credit (a : EnergyAccount) (amount : ℚ) (reason : String)
    (from_node : String) (message_id : Option String) (now : ℚ) :
    EnergyAccount :=
  let amount2 : ℚ :=
    if reason = "relay" ∧ a.is_plugged_in then amount * a.relay_multiplier
    else amount
  let a1 : EnergyAccount :=
    { a with
      balance := a.balance + amount2
      total_earned := a.total_earned + amount2
      messages_relayed :=
        if reason = "relay" then a.messages_relayed + 1 else a.messages_relayed
      messages_received :=
        if reason ≠ "relay" ∧ reason = "receive" then a.messages_received + 1
        else a.messages_received }
  let tx : EnergyTransaction :=
    { transaction_id := a1.transactions.length
      timestamp := now
      from_node := from_node
      to_node := a.node_id
      amount := amount2
      reason := reason
      message_id := message_id }
  { a1 with transactions := a1.transactions ++ [tx] }

/-- One ledger operation: a call to `debit` or to `credit`. -/
inductive EnergyOp where
  | debit (amount : ℚ) (reason : String) (message_id : Option String) (now : ℚ)
  | credit (amount : ℚ) (reason : String) (from_node : String)
      (message_id : Option String) (now : ℚ)
deriving DecidableEq, Repr

/-- Apply one ledger operation to an account. -/
def EnergyAccount.applyOp (a : EnergyAccount) : EnergyOp → EnergyAccount
  | .debit amount reason message_id now =>
      (a.debit amount reason message_id now).2
  | .credit amount reason from_node message_id now =>
      a.credit amount reason from_node message_id now

/-- Apply a sequence of ledger operations, first element first. -/
def EnergyAccount.applyOps (a : EnergyAccount) (ops : List EnergyOp) :
    EnergyAccount :=
  ops.foldl EnergyAccount.applyOp a

/-- Modelled from the spec: the repository has no replay function; §4.4 states
"The per-account transaction log, replayed from initial balance, reconstructs
current balance, earned, and spent exactly."  A logged transaction whose
`to_node` is this account is replayed as a credit, any other as a debit
(the source's `debit` always writes `to_node = "network"`, and its `credit`
always writes `to_node` = the account itself). -/
def replayLog (node_id : String) (initial : ℚ)
    (log : List EnergyTransaction) : ℚ × ℚ × ℚ :=
  log.foldl
    (fun s tx =>
      if tx.to_node = node_id then (s.1 + tx.amount, s.2.1 + tx.amount, s.2.2)
      else (s.1 - tx.amount, s.2.1, s.2.2 + tx.amount))
    (initial, 0, 0)

/-- The ledger invariant of §4.4 / §8.1, as a predicate on accounts:
the log replays to the current totals, the balance equation holds, and the
transaction ids are exactly `0, 1, 2, …` in log order. -/
def EnergyInv (node_id : String) (initial : ℚ) (a : EnergyAccount) : Prop :=
  a.node_id = node_id ∧
  replayLog node_id initial a.transactions =
    (a.balance, a.total_earned, a.total_spent) ∧
  a.balance = initial + a.total_earned - a.total_spent ∧
  a.transactions.map (fun tx => tx.transaction_id) =
    List.range a.transactions.length

lemma replayLog_append (n : String) (i : ℚ) (l : List EnergyTransaction)
    (tx : EnergyTransaction) :
    replayLog n i (l ++ [tx]) =
      (if tx.to_node = n then
        ((replayLog n i l).1 + tx.amount,
         (replayLog n i l).2.1 + tx.amount, (replayLog n i l).2.2)
      else
        ((replayLog n i l).1 - tx.amount,
         (replayLog n i l).2.1, (replayLog n i l).2.2 + tx.amount)) := by
  simp only [replayLog, List.foldl_append, List.foldl_cons, List.foldl_nil]

lemma energyInv_mk0 (n : String) (i : ℚ) (p : Bool) :
    EnergyInv n i (EnergyAccount.mk0 n i p) := by
  refine ⟨rfl, ?_, by simp [EnergyAccount.mk0], by simp [EnergyAccount.mk0]⟩
  simp [replayLog, EnergyAccount.mk0]

lemma energyInv_applyOp (n : String) (i : ℚ) (hn : n ≠ "network")
    (a : EnergyAccount) (op : EnergyOp) (h : EnergyInv n i a) :
    EnergyInv n i (a.applyOp op) := by
  obtain ⟨hid, hre, hbal, hids⟩ := h
  cases op with
  | debit amount reason message_id now =>
      simp only [EnergyAccount.applyOp, EnergyAccount.debit]
      split
      · exact ⟨hid, hre, hbal, hids⟩
      · refine ⟨hid, ?_, ?_, ?_⟩
        · rw [replayLog_append, if_neg (by simpa [hid] using hn.symm), hre]
        · simp only
          linarith
        · simp only [List.map_append, hids, List.length_append,
            List.map_cons, List.map_nil, List.length_map, List.length_range,
            List.range_succ, List.length_cons, List.length_nil]
  | credit amount reason from_node message_id now =>
      simp only [EnergyAccount.applyOp, EnergyAccount.credit]
      refine ⟨hid, ?_, ?_, ?_⟩
      · rw [replayLog_append, if_pos (by simpa using hid), hre]
      · simp only
        linarith
      · simp only [List.map_append, hids, List.length_append,
          List.map_cons, List.map_nil, List.length_map, List.length_range,
          List.range_succ, List.length_cons, List.length_nil]

lemma energyInv_applyOps (n : String) (i : ℚ) (hn : n ≠ "network")
    (a : EnergyAccount) (ops : List EnergyOp) (h : EnergyInv n i a) :
    EnergyInv n i (a.applyOps ops) := by
  induction ops generalizing a with
  | nil => exact h
  | cons op rest ih =>
      exact ih (a.applyOp op) (energyInv_applyOp n i hn a op h)

/-- **C2.**  For every account (created with an arbitrary node id, initial
balance and plugged-in flag) and every sequence of `debit`/`credit`
operations, replaying the transaction log from the initial balance reproduces
the current balance, total earned and total spent exactly; after every
operation `balance = initial + earned − spent`; and the appended transaction
ids are strictly (hence monotonically) increasing — they are exactly
`0, 1, 2, …` in log order.  (The source's `debit` tags every transaction
with `to_node = "network"`, so the account itself must not be named
`"network"` for the replay classification to be meaningful.) -/
theorem energy_account_log_replay (node_id : String) (initial : ℚ)
    (plugged : Bool) (ops : List EnergyOp) (hn : node_id ≠ "network") :
    replayLog node_id initial
        ((EnergyAccount.mk0 node_id initial plugged).applyOps
          ops).transactions =
      (((EnergyAccount.mk0 node_id initial plugged).applyOps ops).balance,
       ((EnergyAccount.mk0 node_id initial plugged).applyOps
         ops).total_earned,
       ((EnergyAccount.mk0 node_id initial plugged).applyOps
         ops).total_spent) ∧
    ((EnergyAccount.mk0 node_id initial plugged).applyOps ops).balance =
      initial +
        ((EnergyAccount.mk0 node_id initial plugged).applyOps
          ops).total_earned -
        ((EnergyAccount.mk0 node_id initial plugged).applyOps
          ops).total_spent ∧
    (((EnergyAccount.mk0 node_id initial plugged).applyOps
        ops).transactions.map
      (fun tx => tx.transaction_id)).Pairwise (· < ·) := by
  obtain ⟨-, hre, hbal, hids⟩ :=
    energyInv_applyOps node_id initial hn
      (EnergyAccount.mk0 node_id initial plugged) ops
      (energyInv_mk0 node_id initial plugged)
  refine ⟨hre, hbal, ?_⟩
  rw [hids]
  exact List.pairwise_lt_range _

/-- Witness for C2: a concrete account at node `"A"` with a send debit, a
relay credit and a refused (over-balance) debit. -/
theorem energy_account_log_replay_witness :
    ("A" : String) ≠ "network" ∧
    (replayLog "A" 1000
        ((EnergyAccount.mk0 "A" 1000 false).applyOps
          [.debit 100 "send" (some "m1") 5,
           .credit 10 "relay" "B" (some "m2") 6,
           .debit 5000 "send" none 7]).transactions =
      (((EnergyAccount.mk0 "A" 1000 false).applyOps
          [.debit 100 "send" (some "m1") 5,
           .credit 10 "relay" "B" (some "m2") 6,
           .debit 5000 "send" none 7]).balance,
       ((EnergyAccount.mk0 "A" 1000 false).applyOps
          [.debit 100 "send" (some "m1") 5,
           .credit 10 "relay" "B" (some "m2") 6,
           .debit 5000 "send" none 7]).total_earned,
       ((EnergyAccount.mk0 "A" 1000 false).applyOps
          [.debit 100 "send" (some "m1") 5,
           .credit 10 "relay" "B" (some "m2") 6,
           .debit 5000 "send" none 7]).total_spent) ∧
      ((EnergyAccount.mk0 "A" 1000 false).applyOps
          [.debit 100 "send" (some "m1") 5,
           .credit 10 "relay" "B" (some "m2") 6,
           .debit 5000 "send" none 7]).balance =
        1000 +
          ((EnergyAccount.mk0 "A" 1000 false).applyOps
            [.debit 100 "send" (some "m1") 5,
             .credit 10 "relay" "B" (some "m2") 6,
             .debit 5000 "send" none 7]).total_earned -
          ((EnergyAccount.mk0 "A" 1000 false).applyOps
            [.debit 100 "send" (some "m1") 5,
             .credit 10 "relay" "B" (some "m2") 6,
             .debit 5000 "send" none 7]).total_spent ∧
      (((EnergyAccount.mk0 "A" 1000 false).applyOps
          [.debit 100 "send" (some "m1") 5,
           .credit 10 "relay" "B" (some "m2") 6,
           .debit 5000 "send" none 7]).transactions.map
        (fun tx => tx.transaction_id)).Pairwise (· < ·)) :=
  ⟨by decide,
   energy_account_log_replay "A" 1000 false
     [.debit 100 "send" (some "m1") 5,
      .credit 10 "relay" "B" (some "m2") 6,
      .debit 5000 "send" none 7] (by decide)⟩

/-! ## Messages (`meshphone/core/message.py`) -/

/-- `MessageType` from `message.py`. -/
inductive MessageType where
  | text | voice | file | ack | route_request | route_reply | route_error
  | heartbeat
deriving DecidableEq, Repr

/-- `MessagePriority` from `message.py` (values 0–3). -/
inductive MessagePriority where
  | low | normal | high | urgent
deriving DecidableEq, Repr

/-- The priority factor table of `Message.calculate_energy_cost`. -/
def MessagePriority.factor : MessagePriority → ℚ
  | .low => 1/2
  | .normal => 1
  | .high => 3/2
  | .urgent => 2

/-- `MessageHeader` from `message.py`. -/
structure MessageHeader where
  message_id : String
  sender_id : String
  recipient_id : String
  timestamp : ℚ
  message_type : MessageType
  priority : MessagePriority
  ttl : Int
  sequence_number : Int
deriving DecidableEq, Repr

/-- `MessagePayload` from `message.py`.  `metadata` values and `attachments`
entries are modelled as strings (the repository only ever stores string
metadata values and leaves `attachments` empty on the paths under claim). -/
structure MessagePayload where
  content : String
  content_type : String
  metadata : List (String × String)
  attachments : List String
deriving DecidableEq, Repr

/-- `OnionLayer` from `message.py` (the routing-level record; the crypto
layer of `crypto/onion.py` is modelled separately below). -/
structure OnionLayer where
  next_hop : String
  layer_encrypted : Bool
  layer_data : Option (List Nat)
deriving DecidableEq, Repr

/-- `Message` from `message.py`. -/
structure Message where
  header : MessageHeader
  payload : MessagePayload
  onion_layers : List OnionLayer
  hops_taken : List String
  energy_cost : ℚ
  is_encrypted : Bool
  signature : Option String
deriving DecidableEq, Repr

/-- Escaping of one character by `json.dumps` (the cases that arise for the
ASCII payloads of this development). -/
def jsonEscapeChar (c : Char) : String :=
  if c = '"' then "\\\""
  else if c = '\\' then "\\\\"
  else if c = '\n' then "\\n"
  else if c = '\r' then "\\r"
  else if c = '\t' then "\\t"
  else String.singleton c

/-- A JSON string literal as `json.dumps` renders one. -/
def jsonString (s : String) : String :=
  "\"" ++ String.join (s.toList.map jsonEscapeChar) ++ "\""

/-- A JSON object over already rendered field values, with `json.dumps`'s
default separators `", "` and `": "`. -/
def jsonObject (fields : List (String × String)) : String :=
  "\x7b" ++
    String.intercalate ", "
      (fields.map fun kv => jsonString kv.1 ++ ": " ++ kv.2) ++
  "\x7d"

/-- A JSON array over already rendered values. -/
def jsonArray (vals : List String) : String :=
  "[" ++ String.intercalate ", " vals ++ "]"

/-- UTF-8 byte length of a string (`len(….encode('utf-8'))`). -/
def utf8Len (s : String) : Nat :=
  s.toList.foldl (fun n c => n + c.utf8Size) 0

/-- `json.dumps(payload.to_dict())` for a `MessagePayload`. -/
def MessagePayload.to_dict_json (p : MessagePayload) : String :=
  jsonObject
    [("content", jsonString p.content),
     ("content_type", jsonString p.content_type),
     ("metadata",
        jsonObject (p.metadata.map fun kv => (kv.1, jsonString kv.2))),
     ("attachments", jsonArray (p.attachments.map jsonString))]

/-- `MessagePayload.get_size_bytes`. -/
def MessagePayload.get_size_bytes (p : MessagePayload) : Nat :=
  utf8Len p.to_dict_json

/-- `Message.create_text_message`.  The fresh `uuid.uuid4()` and the
`time.time()` reading are the explicit arguments `message_id` and `now`. -/
def Message.create_text_message (sender_id recipient_id text : String)
    (priority : MessagePriority) (message_id : String) (now : ℚ) : Message :=
  { header :=
      { message_id := message_id
        sender_id := sender_id
        recipient_id := recipient_id
        timestamp := now
        message_type := .text
        priority := priority
        ttl := 10
        sequence_number := 0 }
    payload :=
      { content := text
        content_type := "text/plain"
        metadata := []
        attachments := [] }
    onion_layers := []
    hops_taken := []
    energy_cost := 0
    is_encrypted := false
    signature := none }

/-- `Message.create_ack`: type `ack`, priority `high`, `ttl = 5`, payload
content and `ack_for` metadata hold the acknowledged message id. -/
def Message.create_ack (original_message_id sender_id recipient_id : String)
    (message_id : String) (now : ℚ) : Message :=
  { header :=
      { message_id := message_id
        sender_id := sender_id
        recipient_id := recipient_id
        timestamp := now
        message_type := .ack
        priority := .high
        ttl := 5
        sequence_number := 0 }
    payload :=
      { content := original_message_id
        content_type := "application/json"
        metadata := [("ack_for", original_message_id)]
        attachments := [] }
    onion_layers := []
    hops_taken := []
    energy_cost := 0
    is_encrypted := false
    signature := none }

/-- `Message.add_hop`: append the node to `hops_taken` and decrement the
TTL. -/
def Message.add_hop (m : Message) (node_id : String) : Message :=
  { m with
    hops_taken := m.hops_taken ++ [node_id]
    header := { m.header with ttl := m.header.ttl - 1 } }

/-- `Message.is_expired`. -/
def Message.is_expired (m : Message) : Bool :=
  m.header.ttl ≤ 0

/-- `Message.should_relay`. -/
def Message.should_relay (m : Message) (current_node_id : String) : Bool :=
  if m.is_expired then false
  else if m.header.recipient_id = current_node_id then false
  else if current_node_id ∈ m.hops_taken then false
  else true

/-- `Message.calculate_energy_cost`:
`round(100 · (1 + 0.1·size_kb) · priority_factor · (1 + 0.2·(10 − ttl)), 2)`. -/
def Message.calculate_energy_cost (m : Message) : ℚ :=
  let base_cost : ℚ := 100
  let size_kb : ℚ := (m.payload.get_size_bytes : ℚ) / 1024
  let size_factor : ℚ := 1 + size_kb * (1/10)
  let priority_factor : ℚ := m.header.priority.factor
  let expected_hops : ℚ := 10 - (m.header.ttl : ℚ)
  let hop_factor : ℚ := 1 + expected_hops * (1/5)
  round2 (base_cost * size_factor * priority_factor * hop_factor)

/-- `Message.get_relay_reward`: 10% of `calculate_energy_cost` (recomputed
at call time), rounded to two decimals. -/
def Message.get_relay_reward (m : Message) : ℚ :=
  round2 (m.calculate_energy_cost * (1/10))

/-- The dictionary `Message.to_wire_format` serialises, field for field:
it has exactly the keys `header`, `payload`, `hops_taken`, `energy_cost`,
`is_encrypted`, `signature` — and no `onion_layers` key. -/
structure WireMessage where
  header : MessageHeader
  payload : MessagePayload
  hops_taken : List String
  energy_cost : ℚ
  is_encrypted : Bool
  signature : Option String
deriving DecidableEq, Repr

/-- `Message.to_wire_format` (at the level of the serialised dictionary;
`header.to_dict`/`payload.to_dict` emit every field of the header and the
payload, which the identity embedding of those subrecords captures). -/
def Message.to_wire_format (m : Message) : WireMessage :=
  { header := m.header
    payload := m.payload
    hops_taken := m.hops_taken
    energy_cost := m.energy_cost
    is_encrypted := m.is_encrypted
    signature := m.signature }

/-- `Message.from_wire_format`: rebuilds the message from the wire
dictionary; the `Message` dataclass default `onion_layers = []` applies,
since the dictionary carries no `onion_layers` entry. -/
def Message.from_wire_format (w : WireMessage) : Message :=
  { header := w.header
    payload := w.payload
    onion_layers := []
    hops_taken := w.hops_taken
    energy_cost := w.energy_cost
    is_encrypted := w.is_encrypted
    signature := w.signature }

/-- A concrete in-transit message carrying one onion layer. -/
def onionExampleMessage : Message :=
  { header :=
      { message_id := "m-42"
        sender_id := "A"
        recipient_id := "D"
        timestamp := 0
        message_type := .text
        priority := .normal
        ttl := 9
        sequence_number := 0 }
    payload :=
      { content := "secret"
        content_type := "text/plain"
        metadata := []
        attachments := [] }
    onion_layers := [{ next_hop := "C", layer_encrypted := true,
                       layer_data := some [1, 2, 3] }]
    hops_taken := ["A"]
    energy_cost := 120
    is_encrypted := true
    signature := none }

/-- **C5.**  Wire encode ∘ decode is NOT the identity: the serialised
dictionary has no `onion_layers` entry, so decoding the encoding of any
message erases its onion layers; on any message with a non-empty layer list
(e.g. `onionExampleMessage`) the round trip differs from the original. -/
theorem wire_roundtrip_drops_onion_layers :
    (∀ m : Message,
      Message.from_wire_format m.to_wire_format =
        { m with onion_layers := [] }) ∧
    Message.from_wire_format onionExampleMessage.to_wire_format ≠
      onionExampleMessage := by
  refine ⟨fun m => rfl, ?_⟩
  decide

/-! ### C7: TTL/hops accounting -/

/-- The messages observable along a delivery path: a freshly created text
message, a freshly synthesised ACK, or the result of an `add_hop` step at
the sender or at a relay. -/
inductive InTransit : Message → Prop
  | text (sender_id recipient_id text : String) (priority : MessagePriority)
      (message_id : String) (now : ℚ) :
      InTransit (Message.create_text_message sender_id recipient_id text
        priority message_id now)
  | ack (original_message_id sender_id recipient_id message_id : String)
      (now : ℚ) :
      InTransit (Message.create_ack original_message_id sender_id
        recipient_id message_id now)
  | hop (m : Message) (node_id : String) (h : InTransit m) :
      InTransit (m.add_hop node_id)

/-- **C7 (counterexample).**  The claim `ttl + len(hops_taken) = 10` fails on
an in-transit message: a freshly synthesised ACK has `ttl = 5` and no hops,
so the sum is 5. -/
theorem ttl_plus_hops_eq_ten_fails :
    InTransit (Message.create_ack "m1" "B" "A" "ack1" 0) ∧
    ¬ ((Message.create_ack "m1" "B" "A" "ack1" 0).header.ttl +
        ((Message.create_ack "m1" "B" "A" "ack1" 0).hops_taken.length : Int)
        = 10) :=
  ⟨.ack "m1" "B" "A" "ack1" 0, by decide⟩

/-- **C7 (amended).**  For every message observed along a delivery path,
`header.ttl + len(hops_taken)` equals the message's initial TTL — 10 for
every type except ACK, whose initial TTL is 5 — and in particular the sum is
invariant under every `add_hop` step and never exceeds 10. -/
theorem ttl_plus_hops_eq_initial_ttl (m : Message) (h : InTransit m) :
    m.header.ttl + (m.hops_taken.length : Int) =
      (if m.header.message_type = MessageType.ack then 5 else 10) ∧
    m.header.ttl + (m.hops_taken.length : Int) ≤ 10 := by
  induction h with
  | text sender_id recipient_id text priority message_id now =>
      constructor <;> simp [Message.create_text_message]
  | ack original_message_id sender_id recipient_id message_id now =>
      constructor <;> simp [Message.create_ack]
  | hop m node_id h ih =>
      obtain ⟨h1, h2⟩ := ih
      constructor
      · simp only [Message.add_hop, List.length_append, List.length_cons,
          List.length_nil] at h1 ⊢
        omega
      · simp only [Message.add_hop, List.length_append, List.length_cons,
          List.length_nil] at h2 ⊢
        omega

/-- Witness for C7 (amended): a text message after the sender's hop and one
relay hop still sums to 10. -/
theorem ttl_plus_hops_eq_initial_ttl_witness :
    ((Message.create_text_message "A" "D" "hi" .normal "m7" 0).add_hop
        "A" |>.add_hop "B").header.ttl +
      ((((Message.create_text_message "A" "D" "hi" .normal "m7" 0).add_hop
        "A").add_hop "B").hops_taken.length : Int) =
      (if (((Message.create_text_message "A" "D" "hi" .normal "m7"
            0).add_hop "A").add_hop "B").header.message_type =
          MessageType.ack then 5 else 10) ∧
    (((Message.create_text_message "A" "D" "hi" .normal "m7" 0).add_hop
        "A").add_hop "B").header.ttl +
      ((((Message.create_text_message "A" "D" "hi" .normal "m7" 0).add_hop
        "A").add_hop "B").hops_taken.length : Int) ≤ 10 :=
  ttl_plus_hops_eq_initial_ttl _
    (.hop _ "B" (.hop _ "A" (.text "A" "D" "hi" .normal "m7" 0)))

/-! ## Routing (`meshphone/core/routing.py`) -/

/-- A network view: Python's `Dict[str, Set[str]]`, as an association list
(a dict has no duplicate keys; lookup takes the first binding) whose values
are neighbor lists (a set with its iteration order). -/
abbrev NetworkGraph := List (String × List String)

/-- `network_graph.get(current, set())`. -/
def lookupG (g : NetworkGraph) (k : String) : List String :=
  match g.find? (fun p => p.1 == k) with
  | some p => p.2
  | none => []

/-- The key set of the view (`destination not in network_graph` tests
membership here). -/
def keysG (g : NetworkGraph) : List String := g.map Prod.fst

/-- All identities occurring in some neighbor list of the view. -/
def flatNbrs (g : NetworkGraph) : List String := (g.map Prod.snd).flatten

/-- The inner `for neighbor in network_graph.get(current, set())` loop of
`Router.find_route`: scan the neighbor list in order; return the finished
path at the first neighbor equal to the destination; otherwise add each
not-yet-visited neighbor to the visited set and the back of the queue. -/
def processNbrs (dest : String) (path : List String) :
    List String → List String → List (String × List String) →
    Option (List String) × List String × List (String × List String)
  | [], visited, queue => (none, visited, queue)
  | nb :: rest, visited, queue =>
      if nb = dest then (some (path ++ [nb]), visited, queue)
      else if nb ∈ visited then processNbrs dest path rest visited queue
      else
        processNbrs dest path rest (visited ++ [nb])
          (queue ++ [(nb, path ++ [nb])])

/-- Outcome of the BFS `while queue:` loop.  `fuelOut` marks exhaustion of
the structural-recursion budget; `find_route` is run with enough fuel that
this outcome is unreachable (proved below). -/
inductive BfsResult where
  | found (p : List String)
  | exhausted
  | fuelOut
deriving DecidableEq, Repr

/-- The `while queue:` loop of `Router.find_route`. -/
def bfsLoop (g : NetworkGraph) (dest : String) :
    Nat → List String → List (String × List String) → BfsResult
  | 0, _, _ => .fuelOut
  | fuel + 1, visited, queue =>
      match queue with
      | [] => .exhausted
      | (current, path) :: qrest =>
          let r := processNbrs dest path (lookupG g current) visited qrest
          match r.1 with
          | some p => .found p
          | none => bfsLoop g dest fuel r.2.1 r.2.2

/-- `Router.find_route(destination, network_graph)` for a router whose
`node_id` is `self`: returns `[self]` on `destination == self`, `none` when
the destination is not a key of the view, otherwise runs breadth-first
search from `self` with visited set `{self}` and queue `[(self, [self])]`. -/
def find_route (self dest : String) (g : NetworkGraph) :
    Option (List String) :=
  if self = dest then some [self]
  else if dest ∈ keysG g then
    match bfsLoop g dest ((flatNbrs g).length + 2) [self] [(self, [self])]
        with
    | .found p => some p
    | _ => none
  else none

/-- `p` is a directed path from `a` to `b` over the view `g`: nonempty,
starting at `a`, ending at `b`, each step moving to a member of the current
node's neighbor list. -/
inductive IsPath (g : NetworkGraph) : String → String → List String → Prop
  | single (a : String) : IsPath g a a [a]
  | cons (a b c : String) (p : List String) (hab : b ∈ lookupG g a)
      (hp : IsPath g b c p) : IsPath g a c (a :: p)

lemma IsPath.length_pos {g : NetworkGraph} {a b : String}
    {p : List String} (h : IsPath g a b p) : 1 ≤ p.length := by
  cases h <;> simp

lemma IsPath.snoc {g : NetworkGraph} {a b c : String} {p : List String}
    (h : IsPath g a b p) (hbc : c ∈ lookupG g b) :
    IsPath g a c (p ++ [c]) := by
  induction h with
  | single a => exact .cons a c c [c] hbc (.single c)
  | cons a b d q hab hq ih => exact .cons a b c (q ++ [c]) hab (ih hbc)

lemma IsPath.eq_single {g : NetworkGraph} {a b : String} {p : List String}
    (h : IsPath g a b p) (hlen : p.length = 1) : p = [a] ∧ a = b := by
  cases h with
  | single a => exact ⟨rfl, rfl⟩
  | cons a b c q hab hq =>
      exfalso
      have := hq.length_pos
      simp only [List.length_cons] at hlen
      omega

lemma IsPath.two_le_length {g : NetworkGraph} {a b : String}
    {p : List String} (h : IsPath g a b p) (hne : a ≠ b) : 2 ≤ p.length := by
  cases h with
  | single a => exact absurd rfl hne
  | cons a b c q hab hq =>
      have := hq.length_pos
      simp only [List.length_cons]
      omega

/-- A path of length ≥ 2 decomposes as a path to a predecessor of its last
node followed by one edge. -/
lemma IsPath.decompose_last {g : NetworkGraph} {a b : String}
    {p : List String} (h : IsPath g a b p) (hlen : 2 ≤ p.length) :
    ∃ q0 prev, p = q0 ++ [b] ∧ IsPath g a prev q0 ∧ b ∈ lookupG g prev := by
  induction h with
  | single a => simp at hlen
  | cons a c b q hab hq ih =>
      by_cases hq1 : q.length = 1
      · obtain ⟨rfl, rfl⟩ := hq.eq_single hq1
        exact ⟨[a], a, rfl, .single a, hab⟩
      · have h2 : 2 ≤ q.length := by
          have := hq.length_pos
          omega
        obtain ⟨q0, prev, hqe, hq0, hedge⟩ := ih h2
        exact ⟨a :: q0, prev, by simp [hqe],
          .cons a c prev q0 hab hq0, hedge⟩

/-- A path from inside a vertex set `V` to outside it crosses the boundary
along some edge. -/
lemma IsPath.crossing {g : NetworkGraph} {a b : String} {p : List String}
    (h : IsPath g a b p) (V : List String) (ha : a ∈ V) (hb : b ∉ V) :
    ∃ x y, x ∈ V ∧ y ∉ V ∧ y ∈ lookupG g x := by
  induction h with
  | single a => exact absurd ha hb
  | cons a c b q hab hq ih =>
      by_cases hc : c ∈ V
      · exact ih hc hb
      · exact ⟨a, c, ha, hc, hab⟩

lemma lookupG_subset_flatNbrs (g : NetworkGraph) (k : String) :
    ∀ x ∈ lookupG g k, x ∈ flatNbrs g := by
  intro x hx
  unfold lookupG at hx
  rcases hfind : g.find? (fun p => p.1 == k) with - | p
  · rw [hfind] at hx
    simp at hx
  · rw [hfind] at hx
    have hmem := List.mem_of_find?_eq_some hfind
    unfold flatNbrs
    rw [List.mem_flatten]
    exact ⟨p.2, List.mem_map_of_mem Prod.snd hmem, hx⟩

/-- If the destination occurs in the scanned neighbor list, the scan returns
the path extended by the destination. -/
lemma processNbrs_found (dest : String) (path : List String) :
    ∀ (nbrs visited : List String)
      (queue : List (String × List String)), dest ∈ nbrs →
    ∃ v2 q2, processNbrs dest path nbrs visited queue =
      (some (path ++ [dest]), v2, q2) := by
  intro nbrs
  induction nbrs with
  | nil => intro visited queue h; simp at h
  | cons nb rest ih =>
      intro visited queue h
      by_cases hnb : nb = dest
      · subst hnb
        exact ⟨visited, queue, by simp [processNbrs]⟩
      · have hrest : dest ∈ rest := by
          rcases List.mem_cons.mp h with h1 | h1
          · exact absurd h1.symm hnb
          · exact h1
        by_cases hv : nb ∈ visited
        · obtain ⟨v2, q2, heq⟩ := ih visited queue hrest
          refine ⟨v2, q2, ?_⟩
          simp only [processNbrs, if_neg hnb, if_pos hv]
          exact heq
        · obtain ⟨v2, q2, heq⟩ :=
            ih (visited ++ [nb]) (queue ++ [(nb, path ++ [nb])]) hrest
          refine ⟨v2, q2, ?_⟩
          simp only [processNbrs, if_neg hnb, if_neg hv]
          exact heq

/-- If the destination does not occur in the scanned neighbor list, the scan
returns `none` and appends, in order, one queue entry and one visited entry
for each newly discovered neighbor. -/
lemma processNbrs_none_char (dest : String) (path : List String) :
    ∀ (nbrs visited : List String)
      (queue : List (String × List String)), dest ∉ nbrs →
    ∃ extra : List (String × List String),
      processNbrs dest path nbrs visited queue =
        (none, visited ++ extra.map Prod.fst, queue ++ extra) ∧
      (∀ e ∈ extra, e.2 = path ++ [e.1] ∧ e.1 ∈ nbrs ∧ e.1 ∉ visited) ∧
      (∀ nb ∈ nbrs, nb ∈ visited ++ extra.map Prod.fst) ∧
      (extra.map Prod.fst).Nodup := by
  intro nbrs
  induction nbrs with
  | nil =>
      intro visited queue h
      exact ⟨[], by simp [processNbrs], by simp, by simp, by simp⟩
  | cons nb rest ih =>
      intro visited queue h
      have hnb : ¬ (nb = dest) := fun he => h (he ▸ List.mem_cons_self nb rest)
      have hrest : dest ∉ rest := fun hr => h (List.mem_cons_of_mem nb hr)
      by_cases hv : nb ∈ visited
      · obtain ⟨extra, heq, hprops, hall, hnodup⟩ := ih visited queue hrest
        refine ⟨extra, ?_, ?_, ?_, hnodup⟩
        · simp only [processNbrs, if_neg hnb, if_pos hv]
          exact heq
        · intro e he
          obtain ⟨h1, h2, h3⟩ := hprops e he
          exact ⟨h1, List.mem_cons_of_mem nb h2, h3⟩
        · intro x hx
          rcases List.mem_cons.mp hx with rfl | hx2
          · exact List.mem_append_left _ hv
          · exact hall x hx2
      · obtain ⟨extra, heq, hprops, hall, hnodup⟩ :=
          ih (visited ++ [nb]) (queue ++ [(nb, path ++ [nb])]) hrest
        refine ⟨(nb, path ++ [nb]) :: extra, ?_, ?_, ?_, ?_⟩
        · simp only [processNbrs, if_neg hnb, if_neg hv]
          rw [heq]
          simp [List.append_assoc]
        · intro e he
          rcases List.mem_cons.mp he with rfl | he2
          · exact ⟨rfl, List.mem_cons_self nb rest, hv⟩
          · obtain ⟨h1, h2, h3⟩ := hprops e he2
            refine ⟨h1, List.mem_cons_of_mem nb h2, fun hc => h3 ?_⟩
            exact List.mem_append_left _ hc
        · intro x hx
          rcases List.mem_cons.mp hx with rfl | hx2
          · simp
          · have := hall x hx2
            simp only [List.map_cons]
            simp only [List.append_assoc, List.singleton_append] at this ⊢
            exact this
        · simp only [List.map_cons, List.nodup_cons]
          refine ⟨fun hc => ?_, hnodup⟩
          obtain ⟨e, he, he1⟩ := List.mem_map.mp hc
          obtain ⟨-, -, h3⟩ := hprops e he
          exact h3 (List.mem_append_right _ (he1 ▸ List.mem_singleton_self nb))

/-- The BFS loop invariant.  `visited` is the discovered set, `queue` the
frontier (FIFO, paths attached).  Its clauses: every queue entry carries a
valid path ending at its node; frontier nodes are discovered; queue path
lengths are sorted and span at most two consecutive values; every queue
entry carries a minimum-length path to its node; every discovered node that
is off the frontier has been fully expanded (its neighbors are discovered
and do not include the destination); any undiscovered node is at distance
at least one more than the current frontier head; the destination and the
start node are respectively undiscovered and discovered. -/
structure BfsInv (g : NetworkGraph) (start dest : String)
    (visited : List String) (queue : List (String × List String)) :
    Prop where
  entries_path : ∀ e ∈ queue, IsPath g start e.1 e.2
  entries_mem : ∀ e ∈ queue, e.1 ∈ visited
  lens_window : queue.Pairwise
      (fun e1 e2 => e1.2.length ≤ e2.2.length ∧
        e2.2.length ≤ e1.2.length + 1)
  entries_min : ∀ e ∈ queue, ∀ q, IsPath g start e.1 q →
      e.2.length ≤ q.length
  closed : ∀ v ∈ visited, (∀ e ∈ queue, e.1 ≠ v) →
      dest ∉ lookupG g v ∧ ∀ u ∈ lookupG g v, u ∈ visited
  frontier_min : ∀ e, queue.head? = some e → ∀ u, u ∉ visited →
      ∀ q, IsPath g start u q → e.2.length + 1 ≤ q.length
  dest_not_visited : dest ∉ visited
  start_visited : start ∈ visited

/-- One BFS step (expanding the queue head when the destination is not
among its neighbors) preserves the loop invariant. -/
lemma bfsInv_step {g : NetworkGraph} {start dest current : String}
    {path : List String} {visited : List String}
    {qrest extra : List (String × List String)}
    (inv : BfsInv g start dest visited ((current, path) :: qrest))
    (hnd : dest ∉ lookupG g current)
    (hprops : ∀ e ∈ extra, e.2 = path ++ [e.1] ∧
      e.1 ∈ lookupG g current ∧ e.1 ∉ visited)
    (hall : ∀ nb ∈ lookupG g current, nb ∈ visited ++ extra.map Prod.fst) :
    BfsInv g start dest (visited ++ extra.map Prod.fst) (qrest ++ extra) := by
  have hcurpath : IsPath g start current path :=
    inv.entries_path (current, path) (List.mem_cons_self _ _)
  have hl1 : 1 ≤ path.length := hcurpath.length_pos
  have hheadrel : ∀ e ∈ qrest, path.length ≤ e.2.length ∧
      e.2.length ≤ path.length + 1 :=
    (List.pairwise_cons.mp inv.lens_window).1
  have hqrest_pw := (List.pairwise_cons.mp inv.lens_window).2
  have hextra_len : ∀ e ∈ extra, e.2.length = path.length + 1 := by
    intro e he
    rw [(hprops e he).1]
    simp
  -- sortedness of the new queue
  have hw : (qrest ++ extra).Pairwise
      (fun e1 e2 => e1.2.length ≤ e2.2.length ∧
        e2.2.length ≤ e1.2.length + 1) := by
    rw [List.pairwise_append]
    refine ⟨hqrest_pw, ?_, ?_⟩
    · refine List.pairwise_of_forall_mem_list ?_
      intro e1 he1 e2 he2
      rw [hextra_len e1 he1, hextra_len e2 he2]
      omega
    · intro e1 he1 e2 he2
      have h1 := hheadrel e1 he1
      rw [hextra_len e2 he2]
      omega
  -- minimality of the new entries
  have hextra_min : ∀ e ∈ extra, ∀ q, IsPath g start e.1 q →
      e.2.length ≤ q.length := by
    intro e he q hq
    obtain ⟨h1, -, h3⟩ := hprops e he
    have := inv.frontier_min (current, path) rfl e.1 h3 q hq
    rw [h1]
    simpa using this
  refine ⟨?_, ?_, hw, ?_, ?_, ?_, ?_, ?_⟩
  · -- entries_path
    intro e he
    rcases List.mem_append.mp he with h1 | h1
    · exact inv.entries_path e (List.mem_cons_of_mem _ h1)
    · obtain ⟨h2, h3, -⟩ := hprops e h1
      rw [h2]
      exact hcurpath.snoc h3
  · -- entries_mem
    intro e he
    rcases List.mem_append.mp he with h1 | h1
    · exact List.mem_append_left _
        (inv.entries_mem e (List.mem_cons_of_mem _ h1))
    · exact List.mem_append_right _ (List.mem_map_of_mem Prod.fst h1)
  · -- entries_min
    intro e he q hq
    rcases List.mem_append.mp he with h1 | h1
    · exact inv.entries_min e (List.mem_cons_of_mem _ h1) q hq
    · exact hextra_min e h1 q hq
  · -- closed
    intro v hv hno
    rcases List.mem_append.mp hv with h1 | h1
    · by_cases hvc : v = current
      · subst hvc
        exact ⟨hnd, fun u hu => hall u hu⟩
      · have hold : ∀ e ∈ (current, path) :: qrest, e.1 ≠ v := by
          intro e he
          rcases List.mem_cons.mp he with rfl | he2
          · exact fun hc => hvc (hc.symm)
          · exact hno e (List.mem_append_left _ he2)
        obtain ⟨hd, hsub⟩ := inv.closed v h1 hold
        exact ⟨hd, fun u hu => List.mem_append_left _ (hsub u hu)⟩
    · obtain ⟨e, he, he1⟩ := List.mem_map.mp h1
      exact absurd he1 (hno e (List.mem_append_right _ he))
  · -- frontier_min
    intro e2 he2 u hu q hq
    have hu1 : u ∉ visited := fun hc => hu (List.mem_append_left _ hc)
    have hu2 : u ∉ extra.map Prod.fst :=
      fun hc => hu (List.mem_append_right _ hc)
    have hof : path.length + 1 ≤ q.length :=
      inv.frontier_min (current, path) rfl u hu1 q hq
    have he2mem : e2 ∈ qrest ++ extra :=
      List.mem_of_mem_head? (by rw [he2]; rfl)
    have he2win : path.length ≤ e2.2.length ∧
        e2.2.length ≤ path.length + 1 := by
      rcases List.mem_append.mp he2mem with h1 | h1
      · exact hheadrel e2 h1
      · rw [hextra_len e2 h1]
        omega
    by_cases hc : e2.2.length ≤ path.length
    · omega
    · -- the frontier head already has the longer length ℓ + 1
      have hlen2 : e2.2.length = path.length + 1 := by omega
      by_contra hqlt
      push_neg at hqlt
      have hqeq : q.length = path.length + 1 := by omega
      have h2 : 2 ≤ q.length := by omega
      obtain ⟨q0, prev, hqe, hq0, hedge⟩ := hq.decompose_last h2
      have hq0len : q0.length = path.length := by
        have : q.length = q0.length + 1 := by rw [hqe]; simp
        omega
      by_cases hpv : prev ∈ visited
      · by_cases hpc : prev = current
        · subst hpc
          exact hu (hall u hedge)
        · by_cases hex : ∀ e ∈ (current, path) :: qrest, e.1 ≠ prev
          · obtain ⟨-, hsub⟩ := inv.closed prev hpv hex
            exact hu1 (hsub u hedge)
          · push_neg at hex
            obtain ⟨e3, he3, he3p⟩ := hex
            rcases List.mem_cons.mp he3 with rfl | he3q
            · exact hpc he3p.symm
            · have hm3 : e3.2.length ≤ path.length := by
                have := inv.entries_min e3 (List.mem_cons_of_mem _ he3q)
                  q0 (he3p ▸ hq0)
                omega
              have hge3 : path.length ≤ e3.2.length :=
                (hheadrel e3 he3q).1
              have he3len : e3.2.length = path.length := by omega
              -- e3 sits in the new queue with a strictly shorter path than
              -- the head, contradicting sortedness
              obtain ⟨t, ht⟩ := List.head?_eq_some_iff.mp he2
              have he3new : e3 ∈ qrest ++ extra :=
                List.mem_append_left _ he3q
              rw [ht] at he3new hw
              rcases List.mem_cons.mp he3new with rfl | he3t
              · omega
              · have := (List.pairwise_cons.mp hw).1 e3 he3t
                omega
      · have h5 : path.length + 1 ≤ q0.length :=
          inv.frontier_min (current, path) rfl prev hpv q0 hq0
        omega
  · -- dest_not_visited
    intro hc
    rcases List.mem_append.mp hc with h1 | h1
    · exact inv.dest_not_visited h1
    · obtain ⟨e, he, he1⟩ := List.mem_map.mp h1
      exact hnd (he1 ▸ (hprops e he).2.1)
  · exact List.mem_append_left _ inv.start_visited

/-- Soundness and minimality of the BFS loop: under the invariant, a found
path is a valid path from `start` to `dest` of minimum length. -/
lemma bfsLoop_found_correct (g : NetworkGraph) (start dest : String) :
    ∀ (fuel : Nat) (visited : List String)
      (queue : List (String × List String)) (p : List String),
    BfsInv g start dest visited queue →
    bfsLoop g dest fuel visited queue = .found p →
    IsPath g start dest p ∧
      ∀ q, IsPath g start dest q → p.length ≤ q.length := by
  intro fuel
  induction fuel with
  | zero =>
      intro visited queue p inv h
      simp [bfsLoop] at h
  | succ fuel ih =>
      intro visited queue p inv h
      rcases queue with - | ⟨⟨current, path⟩, qrest⟩
      · simp [bfsLoop] at h
      · by_cases hd : dest ∈ lookupG g current
        · obtain ⟨v2, q2, heq⟩ :=
            processNbrs_found dest path _ visited qrest hd
          simp only [bfsLoop, heq] at h
          have hp : p = path ++ [dest] := by
            cases h
            rfl
          subst hp
          have hcur : IsPath g start current path :=
            inv.entries_path (current, path) (List.mem_cons_self _ _)
          refine ⟨hcur.snoc hd, ?_⟩
          intro q hq
          have := inv.frontier_min (current, path) rfl dest
            inv.dest_not_visited q hq
          simpa using this
        · obtain ⟨extra, heq, hprops, hall, hnodup⟩ :=
            processNbrs_none_char dest path _ visited qrest hd
          simp only [bfsLoop, heq] at h
          exact ih _ _ p (bfsInv_step inv hd hprops hall) h

/-- Completeness of the BFS loop: under the invariant, queue exhaustion
means the destination is unreachable. -/
lemma bfsLoop_exhausted_correct (g : NetworkGraph) (start dest : String) :
    ∀ (fuel : Nat) (visited : List String)
      (queue : List (String × List String)),
    BfsInv g start dest visited queue →
    bfsLoop g dest fuel visited queue = .exhausted →
    ∀ q, ¬ IsPath g start dest q := by
  intro fuel
  induction fuel with
  | zero =>
      intro visited queue inv h
      simp [bfsLoop] at h
  | succ fuel ih =>
      intro visited queue inv h
      rcases queue with - | ⟨⟨current, path⟩, qrest⟩
      · intro q hq
        obtain ⟨x, y, hx, hy, hedge⟩ :=
          hq.crossing visited inv.start_visited inv.dest_not_visited
        obtain ⟨-, hsub⟩ := inv.closed x hx (by intro e he; simp at he)
        exact hy (hsub y hedge)
      · by_cases hd : dest ∈ lookupG g current
        · obtain ⟨v2, q2, heq⟩ :=
            processNbrs_found dest path _ visited qrest hd
          simp [bfsLoop, heq] at h
        · obtain ⟨extra, heq, hprops, hall, hnodup⟩ :=
            processNbrs_none_char dest path _ visited qrest hd
          simp only [bfsLoop, heq] at h
          exact ih _ _ (bfsInv_step inv hd hprops hall) h

/-- With fuel exceeding the number of identities the view can ever
discover, the BFS loop does not run out of fuel. -/
lemma bfsLoop_ne_fuelOut (g : NetworkGraph) (start dest : String) :
    ∀ (fuel : Nat) (visited : List String)
      (queue : List (String × List String)),
    visited.Nodup → (∀ x ∈ visited, x ∈ start :: flatNbrs g) →
    queue.length + (start :: flatNbrs g).length < fuel + visited.length →
    bfsLoop g dest fuel visited queue ≠ .fuelOut := by
  intro fuel
  induction fuel with
  | zero =>
      intro visited queue hnd hsub hlen
      exfalso
      have hle : visited.length ≤ (start :: flatNbrs g).length :=
        (hnd.subperm hsub).length_le
      omega
  | succ fuel ih =>
      intro visited queue hnd hsub hlen
      rcases queue with - | ⟨⟨current, path⟩, qrest⟩
      · simp [bfsLoop]
      · by_cases hd : dest ∈ lookupG g current
        · obtain ⟨v2, q2, heq⟩ :=
            processNbrs_found dest path _ visited qrest hd
          simp [bfsLoop, heq]
        · obtain ⟨extra, heq, hprops, hall, hnodup⟩ :=
            processNbrs_none_char dest path _ visited qrest hd
          simp only [bfsLoop, heq]
          refine ih (visited ++ extra.map Prod.fst) (qrest ++ extra) ?_ ?_ ?_
          · rw [List.nodup_append]
            refine ⟨hnd, hnodup, ?_⟩
            intro a ha hamem
            obtain ⟨e, he, he1⟩ := List.mem_map.mp hamem
            exact (hprops e he).2.2 (he1 ▸ ha)
          · intro x hx
            rcases List.mem_append.mp hx with h1 | h1
            · exact hsub x h1
            · obtain ⟨e, he, he1⟩ := List.mem_map.mp h1
              exact List.mem_cons_of_mem _
                (he1 ▸ lookupG_subset_flatNbrs g current e.1
                  (hprops e he).2.1)
          · simp only [List.length_append, List.length_map,
              List.length_cons] at hlen ⊢
            omega

/-- The BFS loop invariant holds at the start of the loop. -/
lemma bfsInv_init (g : NetworkGraph) (start dest : String)
    (hne : dest ≠ start) :
    BfsInv g start dest [start] [(start, [start])] := by
  refine ⟨?_, ?_, ?_, ?_, ?_, ?_, ?_, ?_⟩
  · intro e he
    rw [List.mem_singleton] at he
    subst he
    exact .single start
  · intro e he
    rw [List.mem_singleton] at he
    subst he
    simp
  · simp
  · intro e he q hq
    rw [List.mem_singleton] at he
    subst he
    simpa using hq.length_pos
  · intro v hv hno
    rw [List.mem_singleton] at hv
    subst hv
    exact absurd rfl (hno (v, [v]) (List.mem_singleton_self _))
  · intro e he u hu q hq
    have he2 : (start, [start]) = e := by
      simpa using he
    subst he2
    have hu2 : start ≠ u := by
      simpa using fun h => hu (by simp [h])
    simpa using hq.two_le_length hu2
  · simpa using hne
  · simp

/-- A sample network view `{A: {B}, B: {A, C}, C: {B}}`. -/
def viewABC : NetworkGraph := [("A", ["B"]), ("B", ["A", "C"]), ("C", ["B"])]

/-- **C1.**  `find_route` over an arbitrary network view: it returns the
singleton `[self]` when the destination is the router's own id; it returns
`none` when the destination is unknown to the view (not bound by the map);
any returned path is a valid path from this node to the destination of
minimum length over the view (so `none` is also returned whenever the
destination is unreachable); and whenever the destination is known to the
view (or is the node itself) and a path exists, a path is returned. -/
theorem find_route_correct (start dest : String) (g : NetworkGraph) :
    (dest = start → find_route start dest g = some [start]) ∧
    (dest ≠ start → dest ∉ keysG g → find_route start dest g = none) ∧
    (∀ p, find_route start dest g = some p →
      IsPath g start dest p ∧
        ∀ q, IsPath g start dest q → p.length ≤ q.length) ∧
    ((dest = start ∨ dest ∈ keysG g) → (∃ q, IsPath g start dest q) →
      ∃ p, find_route start dest g = some p) := by
  refine ⟨?_, ?_, ?_, ?_⟩
  · intro h
    subst h
    simp [find_route]
  · intro h1 h2
    have h3 : ¬ (start = dest) := fun h => h1 h.symm
    simp [find_route, h3, h2]
  · intro p hp
    by_cases hsd : start = dest
    · subst hsd
      simp only [find_route, if_pos rfl, eq_self_iff_true, if_true,
        Option.some.injEq] at hp
      subst hp
      refine ⟨.single start, ?_⟩
      intro q hq
      simpa using hq.length_pos
    · by_cases hk : dest ∈ keysG g
      · simp only [find_route, if_neg hsd, if_pos hk] at hp
        rcases hres : bfsLoop g dest ((flatNbrs g).length + 2) [start]
            [(start, [start])] with p2 | - | -
        · rw [hres] at hp
          simp only [Option.some.injEq] at hp
          subst hp
          exact bfsLoop_found_correct g start dest _ _ _ p2
            (bfsInv_init g start dest (fun h => hsd h.symm)) hres
        · rw [hres] at hp
          simp at hp
        · rw [hres] at hp
          simp at hp
      · simp [find_route, hsd, hk] at hp
  · intro hk hex
    by_cases hsd : start = dest
    · exact ⟨[start], by simp [find_route, hsd]⟩
    · have hk2 : dest ∈ keysG g := by
        rcases hk with h | h
        · exact absurd h.symm hsd
        · exact h
      rcases hres : bfsLoop g dest ((flatNbrs g).length + 2) [start]
          [(start, [start])] with p2 | - | -
      · refine ⟨p2, ?_⟩
        simp only [find_route, if_neg hsd, if_pos hk2, hres]
      · obtain ⟨q, hq⟩ := hex
        exact absurd hq (bfsLoop_exhausted_correct g start dest _ _ _
          (bfsInv_init g start dest (fun h => hsd h.symm)) hres q)
      · exfalso
        refine bfsLoop_ne_fuelOut g start dest ((flatNbrs g).length + 2)
          [start] [(start, [start])] (by simp) ?_ ?_ hres
        · intro x hx
          rw [List.mem_singleton] at hx
          subst hx
          exact List.mem_cons_self _ _
        · simp only [List.length_cons, List.length_nil]
          omega

/-- Witness for C1 on the view `{A: {B}, B: {A, C}, C: {B}}`: the route
from `A` to `C` found by the code is `[A, B, C]`, a valid shortest path. -/
theorem find_route_correct_witness :
    IsPath viewABC "A" "C" ["A", "B", "C"] ∧
    ∀ q, IsPath viewABC "A" "C" q → 3 ≤ q.length :=
  (find_route_correct "A" "C" viewABC).2.2.1 ["A", "B", "C"] (by decide)

/-! ## Mesh node (`meshphone/core/node.py`)

The `Router`'s cached routing table is not part of this embedding: no claim
exercises `cache_route`/`get_cached_route`, and `MeshNode.send_message` and
`receive_message` only reach `Router.find_route`, which reads nothing but
the router's `node_id`. -/

/-- `NodeConfig` from `node.py` (the two radio ranges are unused by the
claimed code paths). -/
structure NodeConfig where
  node_id : String
  enable_relay : Bool
  is_plugged_in : Bool
  max_relay_queue : Nat
  initial_energy : ℚ
deriving DecidableEq, Repr

/-- The `stats` dictionary of `MeshNode`. -/
structure NodeStats where
  messages_sent : Nat
  messages_relayed : Nat
  messages_received : Nat
  messages_dropped : Nat
  relay_queue_full : Nat
deriving DecidableEq, Repr

/-- The mutable state of a `MeshNode`. -/
structure MeshNode where
  config : NodeConfig
  node_id : String
  energy_account : EnergyAccount
  neighbors : List String
  network_graph : NetworkGraph
  outgoing_queue : List Message
  relay_queue : List Message
  received_messages : List Message
  stats : NodeStats
  seen_message_ids : List String
deriving DecidableEq, Repr

/-- `MeshNode.__init__`: note that the energy account is built as
`EnergyAccount(node_id=…, balance=…, is_plugged_in=…)`, leaving
`relay_multiplier` at its dataclass default `1.0` even when the node is
plugged in. -/
def MeshNode.init (config : NodeConfig) : MeshNode :=
  { config := config
    node_id := config.node_id
    energy_account :=
      EnergyAccount.mk0 config.node_id config.initial_energy
        config.is_plugged_in
    neighbors := []
    network_graph := []
    outgoing_queue := []
    relay_queue := []
    received_messages := []
    stats := ⟨0, 0, 0, 0, 0⟩
    seen_message_ids := [] }

/-- `MeshNode.update_neighbors` (the route-cache invalidation it also
performs lives in the unmodelled routing table). -/
def MeshNode.update_neighbors (n : MeshNode) (nbrs : List String) :
    MeshNode :=
  { n with neighbors := nbrs }

/-- `MeshNode.update_network_graph`. -/
def MeshNode.update_network_graph (n : MeshNode) (g : NetworkGraph) :
    MeshNode :=
  { n with network_graph := g }

/-- The observable outcome of `MeshNode.send_message` (the source returns
`None` after printing "Insufficient energy" or "No route", and the message
on success). -/
inductive SendResult where
  | insufficient_energy
  | no_route
  | sent (m : Message)
deriving DecidableEq, Repr

/-- `MeshNode.send_message`: create the message; compute its energy cost
(while `ttl` is still 10); refuse if unaffordable; refuse if no route;
otherwise debit, record the cost on the message, add the own hop, enqueue
and count. -/
def MeshNode.send_message (n : MeshNode) (recipient_id content : String)
    (priority : MessagePriority) (message_id : String) (now : ℚ) :
    SendResult × MeshNode :=
  let msg := Message.create_text_message n.node_id recipient_id content
    priority message_id now
  let energy_cost := msg.calculate_energy_cost
  if ¬ n.energy_account.can_afford energy_cost then
    (.insufficient_energy, n)
  else
    match find_route n.node_id recipient_id n.network_graph with
    | none => (.no_route, n)
    | some _ =>
        let acct := (n.energy_account.debit energy_cost "send"
          (some msg.header.message_id) now).2
        let msg3 := ({ msg with energy_cost := energy_cost }).add_hop
          n.node_id
        (.sent msg3,
          { n with
            energy_account := acct
            outgoing_queue := n.outgoing_queue ++ [msg3]
            stats := { n.stats with
              messages_sent := n.stats.messages_sent + 1 } })

/-- `MeshNode.receive_message`: drop duplicates (counting them); insert the
id into the seen set; deliver-and-ACK if addressed to this node; otherwise
relay-or-drop.  The fresh uuid and clock reading used for a synthesised ACK
are the explicit arguments `ack_message_id` and `now`. -/
def MeshNode.receive_message (n : MeshNode) (msg : Message)
    (ack_message_id : String) (now : ℚ) : Bool × MeshNode :=
  if msg.header.message_id ∈ n.seen_message_ids then
    (false, { n with stats := { n.stats with
      messages_dropped := n.stats.messages_dropped + 1 } })
  else
    let n1 := { n with
      seen_message_ids := msg.header.message_id :: n.seen_message_ids }
    if msg.header.recipient_id = n.node_id then
      let ack := Message.create_ack msg.header.message_id n.node_id
        msg.header.sender_id ack_message_id now
      (true, { n1 with
        received_messages := n1.received_messages ++ [msg]
        stats := { n1.stats with
          messages_received := n1.stats.messages_received + 1 }
        outgoing_queue := n1.outgoing_queue ++ [ack] })
    else if ¬ n.config.enable_relay then
      (false, { n1 with stats := { n1.stats with
        messages_dropped := n1.stats.messages_dropped + 1 } })
    else if ¬ msg.should_relay n.node_id then
      (false, { n1 with stats := { n1.stats with
        messages_dropped := n1.stats.messages_dropped + 1 } })
    else if n.config.max_relay_queue ≤ n.relay_queue.length then
      (false, { n1 with stats := { n1.stats with
        messages_dropped := n1.stats.messages_dropped + 1
        relay_queue_full := n1.stats.relay_queue_full + 1 } })
    else
      let msg2 := msg.add_hop n.node_id
      (true, { n1 with
        relay_queue := n1.relay_queue ++ [msg2]
        energy_account := n1.energy_account.credit msg2.get_relay_reward
          "relay" msg.header.sender_id (some msg.header.message_id) now
        stats := { n1.stats with
          messages_relayed := n1.stats.messages_relayed + 1 } })

/-- **C10.**  `receive_message` inserts the message id into the seen set
before any accept/relay/drop decision — whatever branch is taken, the id is
in the seen set afterwards — and a later arrival of any message bearing the
same id is dropped (`False` result), the only state change being the
`messages_dropped` counter: queues, ledger and delivery state are
untouched. -/
theorem receive_message_seen_set (n : MeshNode) (msg : Message)
    (ack_id : String) (now : ℚ) :
    msg.header.message_id ∈
      (n.receive_message msg ack_id now).2.seen_message_ids ∧
    ∀ (msg2 : Message) (ack2 : String) (now2 : ℚ),
      msg2.header.message_id = msg.header.message_id →
      (n.receive_message msg ack_id now).2.receive_message msg2 ack2 now2 =
        (false,
         { (n.receive_message msg ack_id now).2 with
           stats := { (n.receive_message msg ack_id now).2.stats with
             messages_dropped :=
               (n.receive_message msg ack_id now).2.stats.messages_dropped
                 + 1 } }) := by
  have hmem : msg.header.message_id ∈
      (n.receive_message msg ack_id now).2.seen_message_ids := by
    unfold MeshNode.receive_message
    split_ifs with h1 <;> simp [h1]
  refine ⟨hmem, ?_⟩
  intro msg2 ack2 now2 heq
  rcases hrec : n.receive_message msg ack_id now with ⟨r1, s1⟩
  rw [hrec] at hmem
  have hmem2 : msg2.header.message_id ∈ s1.seen_message_ids := by
    rw [heq]
    exact hmem
  simp only [MeshNode.receive_message, if_pos hmem2]

/-- Witness for C10: a fresh node `A` receives a text message from `B`; the
second arrival of the same message is dropped with only the drop counter
changing. -/
theorem receive_message_seen_set_witness :
    (Message.create_text_message "B" "A" "hi" .normal "m10" 0).header.message_id ∈
      ((MeshNode.init ⟨"A", true, false, 100, 1000⟩).receive_message
        (Message.create_text_message "B" "A" "hi" .normal "m10" 0) "a1"
        0).2.seen_message_ids ∧
    ((MeshNode.init ⟨"A", true, false, 100, 1000⟩).receive_message
        (Message.create_text_message "B" "A" "hi" .normal "m10" 0) "a1"
        0).2.receive_message
        (Message.create_text_message "B" "A" "hi" .normal "m10" 0) "a2" 1 =
      (false,
       { ((MeshNode.init ⟨"A", true, false, 100, 1000⟩).receive_message
           (Message.create_text_message "B" "A" "hi" .normal "m10" 0) "a1"
           0).2 with
         stats :=
           { ((MeshNode.init ⟨"A", true, false, 100, 1000⟩).receive_message
               (Message.create_text_message "B" "A" "hi" .normal "m10" 0)
               "a1" 0).2.stats with
             messages_dropped :=
               ((MeshNode.init ⟨"A", true, false, 100, 1000⟩).receive_message
                 (Message.create_text_message "B" "A" "hi" .normal "m10" 0)
                 "a1" 0).2.stats.messages_dropped + 1 } }) :=
  ⟨(receive_message_seen_set (MeshNode.init ⟨"A", true, false, 100, 1000⟩)
      (Message.create_text_message "B" "A" "hi" .normal "m10" 0) "a1" 0).1,
   (receive_message_seen_set (MeshNode.init ⟨"A", true, false, 100, 1000⟩)
      (Message.create_text_message "B" "A" "hi" .normal "m10" 0) "a1" 0).2
     (Message.create_text_message "B" "A" "hi" .normal "m10" 0) "a2" 1 rfl⟩

/-- **C8.**  Contrary to the claim that ACKs do not themselves emit ACKs:
when a not-yet-seen message addressed to this node is processed, the code
synthesises and enqueues an ACK regardless of the message's type — in
particular also when the received message is itself of type `ack`. -/
theorem receive_ack_synthesizes_ack (n : MeshNode) (msg : Message)
    (ack_id : String) (now : ℚ)
    (_htype : msg.header.message_type = MessageType.ack)
    (hrecip : msg.header.recipient_id = n.node_id)
    (hseen : msg.header.message_id ∉ n.seen_message_ids) :
    (n.receive_message msg ack_id now).2.outgoing_queue =
      n.outgoing_queue ++
        [Message.create_ack msg.header.message_id n.node_id
          msg.header.sender_id ack_id now] ∧
    (Message.create_ack msg.header.message_id n.node_id
      msg.header.sender_id ack_id now).header.message_type =
      MessageType.ack := by
  constructor
  · simp [MeshNode.receive_message, hseen, hrecip]
  · rfl

/-- Witness for C8: node `A` receives an ACK from `B` addressed to `A`, and
enqueues an ACK for that ACK. -/
theorem receive_ack_synthesizes_ack_witness :
    (Message.create_ack "m0" "B" "A" "mAck" 0).header.message_type =
      MessageType.ack ∧
    (((MeshNode.init ⟨"A", true, false, 100, 1000⟩).receive_message
        (Message.create_ack "m0" "B" "A" "mAck" 0) "a9" 1).2.outgoing_queue =
      (MeshNode.init ⟨"A", true, false, 100, 1000⟩).outgoing_queue ++
        [Message.create_ack
          (Message.create_ack "m0" "B" "A" "mAck" 0).header.message_id
          (MeshNode.init ⟨"A", true, false, 100, 1000⟩).node_id
          (Message.create_ack "m0" "B" "A" "mAck" 0).header.sender_id "a9"
          1] ∧
      (Message.create_ack
        (Message.create_ack "m0" "B" "A" "mAck" 0).header.message_id
        (MeshNode.init ⟨"A", true, false, 100, 1000⟩).node_id
        (Message.create_ack "m0" "B" "A" "mAck" 0).header.sender_id "a9"
        1).header.message_type = MessageType.ack) :=
  ⟨rfl,
   receive_ack_synthesizes_ack (MeshNode.init ⟨"A", true, false, 100, 1000⟩)
     (Message.create_ack "m0" "B" "A" "mAck" 0) "a9" 1 rfl rfl
     (by decide)⟩

/-- **C9.**  If the sender's balance is strictly below the computed send
cost, `send_message` refuses with the insufficient-energy outcome and the
whole node state — in particular the ledger — is unchanged; if the balance
equals the cost exactly and a route exists, the send succeeds and the
resulting balance is 0. -/
theorem send_message_energy_boundary (n : MeshNode)
    (recipient_id content : String) (priority : MessagePriority)
    (message_id : String) (now : ℚ) :
    (n.energy_account.balance <
        (Message.create_text_message n.node_id recipient_id content priority
          message_id now).calculate_energy_cost →
      n.send_message recipient_id content priority message_id now =
        (.insufficient_energy, n)) ∧
    (n.energy_account.balance =
        (Message.create_text_message n.node_id recipient_id content priority
          message_id now).calculate_energy_cost →
      find_route n.node_id recipient_id n.network_graph ≠ none →
      (∃ m, (n.send_message recipient_id content priority message_id
          now).1 = .sent m) ∧
      (n.send_message recipient_id content priority message_id
        now).2.energy_account.balance = 0) := by
  constructor
  · intro h
    have hna : ¬ (n.energy_account.can_afford
        (Message.create_text_message n.node_id recipient_id content priority
          message_id now).calculate_energy_cost = true) := by
      simp only [EnergyAccount.can_afford, decide_eq_true_eq]
      exact not_le.mpr h
    simp [MeshNode.send_message, hna]
  · intro h hroute
    have hca : n.energy_account.can_afford
        (Message.create_text_message n.node_id recipient_id content priority
          message_id now).calculate_energy_cost = true := by
      simp only [EnergyAccount.can_afford, decide_eq_true_eq]
      exact le_of_eq h.symm
    rcases hfr : find_route n.node_id recipient_id n.network_graph with - | r
    · exact absurd hfr hroute
    · constructor
      · simp [MeshNode.send_message, hca, hfr]
      · simp [MeshNode.send_message, hca, hfr, EnergyAccount.debit,
          EnergyAccount.can_afford, le_of_eq h.symm]
        rw [← h]
        ring

/-- `json.dumps` of the payload of a "hello" text message is 85 bytes. -/
lemma get_size_bytes_hello :
    (MessagePayload.mk "hello" "text/plain" [] []).get_size_bytes = 85 := by
  decide

/-- The energy cost computed at creation time (TTL still 10) for a
normal-priority "hello" message: `round(100 · (1 + 0.1·85/1024), 2)`. -/
lemma calculate_energy_cost_hello (s r mid : String) (now : ℚ) :
    (Message.create_text_message s r "hello" MessagePriority.normal mid
      now).calculate_energy_cost = 10083/100 := by
  simp only [Message.calculate_energy_cost, Message.create_text_message,
    MessagePriority.factor, get_size_bytes_hello]
  norm_num [round2]

/-- Witness for C9: with the two-node view `{A: {B}, B: {A}}`, a node with
balance 50 cannot afford the 100.83 cost of sending "hello" and its state
is unchanged; a node with balance exactly 100.83 sends successfully and
ends at balance 0. -/
theorem send_message_energy_boundary_witness :
    (((MeshNode.init ⟨"A", true, false, 100, 50⟩).update_network_graph
        [("A", ["B"]), ("B", ["A"])]).send_message "B" "hello" .normal "m1"
        0 =
      (.insufficient_energy,
        (MeshNode.init ⟨"A", true, false, 100, 50⟩).update_network_graph
          [("A", ["B"]), ("B", ["A"])])) ∧
    ((∃ m, (((MeshNode.init ⟨"A", true, false, 100,
          10083/100⟩).update_network_graph
          [("A", ["B"]), ("B", ["A"])]).send_message "B" "hello" .normal
          "m1" 0).1 = .sent m) ∧
      (((MeshNode.init ⟨"A", true, false, 100,
          10083/100⟩).update_network_graph
          [("A", ["B"]), ("B", ["A"])]).send_message "B" "hello" .normal
          "m1" 0).2.energy_account.balance = 0) :=
  ⟨(send_message_energy_boundary
      ((MeshNode.init ⟨"A", true, false, 100, 50⟩).update_network_graph
        [("A", ["B"]), ("B", ["A"])]) "B" "hello" .normal "m1" 0).1
      (by
        simp [MeshNode.update_network_graph, MeshNode.init,
          EnergyAccount.mk0, calculate_energy_cost_hello]
        norm_num),
   (send_message_energy_boundary
      ((MeshNode.init ⟨"A", true, false, 100,
        10083/100⟩).update_network_graph
        [("A", ["B"]), ("B", ["A"])]) "B" "hello" .normal "m1" 0).2
      (by
        simp [MeshNode.update_network_graph, MeshNode.init,
          EnergyAccount.mk0, calculate_energy_cost_hello])
      (by decide)⟩

/-- The message `A` emits after `send_message "hello"` over the view
`{A: {B}, B: {A, C, D-side}}`-style topologies: TTL already decremented to
9, own hop recorded, send cost 100.83 recorded. -/
def msgAD : Message :=
  { header :=
      { message_id := "mAD"
        sender_id := "A"
        recipient_id := "D"
        timestamp := 0
        message_type := .text
        priority := .normal
        ttl := 9
        sequence_number := 0 }
    payload :=
      { content := "hello"
        content_type := "text/plain"
        metadata := []
        attachments := [] }
    onion_layers := []
    hops_taken := ["A"]
    energy_cost := 10083/100
    is_encrypted := false
    signature := none }

/-- After a relay adds its hop (TTL 9 → 8), the recomputed cost of the
"hello" message is `round(100 · (1 + 0.1·85/1024) · (1 + 0.2·2), 2)`. -/
lemma cost_msgAD_hop (nid : String) :
    (msgAD.add_hop nid).calculate_energy_cost = 3529/25 := by
  simp only [Message.calculate_energy_cost, Message.add_hop, msgAD,
    MessagePriority.factor, get_size_bytes_hello]
  norm_num [round2]

/-- The relay reward the code grants for `msgAD` (10% of the cost
recomputed after the relay's own hop, not of the recorded send cost). -/
lemma reward_msgAD_hop (nid : String) :
    (msgAD.add_hop nid).get_relay_reward = 353/25 := by
  simp only [Message.get_relay_reward, cost_msgAD_hop]
  norm_num [round2]

/-- **C3 (code bug).**  `send_message` debits the cost computed while the
TTL is still 10, so the hop factor is always `1 + 0.2·(10−10) = 1`: the
charged amount is `round(100 · (1 + 0.1·size_kb) · priority_factor, 2)`
whatever the route.  In the direct-neighbor scenario (view
`{A: {B}, B: {A}}`, "hello", normal priority) the code debits 100.83, not
the 120 the claim requires. -/
theorem send_cost_ignores_route_hops :
    (∀ (sender recipient content : String) (priority : MessagePriority)
       (mid : String) (now : ℚ),
      (Message.create_text_message sender recipient content priority mid
        now).calculate_energy_cost =
        round2 (100 *
          (1 + ((Message.create_text_message sender recipient content
              priority mid now).payload.get_size_bytes : ℚ) / 1024 *
            (1/10)) * priority.factor)) ∧
    (((MeshNode.init ⟨"A", true, false, 100, 1000⟩).update_network_graph
        [("A", ["B"]), ("B", ["A"])]).send_message "B" "hello" .normal "m1"
        0).2.energy_account.balance = 1000 - 10083/100 ∧
    ((((MeshNode.init ⟨"A", true, false, 100, 1000⟩).update_network_graph
        [("A", ["B"]), ("B", ["A"])]).send_message "B" "hello" .normal "m1"
        0).2.outgoing_queue.map fun m => m.energy_cost) = [10083/100] ∧
    (10083/100 : ℚ) ≠ 120 := by
  have hca : ∀ nid : String,
      (EnergyAccount.mk0 nid 1000 false).can_afford
        (Message.create_text_message "A" "B" "hello" MessagePriority.normal
          "m1" 0).calculate_energy_cost = true := by
    intro nid
    simp only [EnergyAccount.can_afford, decide_eq_true_eq,
      calculate_energy_cost_hello, EnergyAccount.mk0]
    norm_num
  have hfr : find_route "A" "B" [("A", ["B"]), ("B", ["A"])] =
      some ["A", "B"] := by decide
  refine ⟨?_, ?_, ?_, by norm_num⟩
  · intro sender recipient content priority mid now
    simp only [Message.calculate_energy_cost, Message.create_text_message]
    congr 1
    push_cast
    ring
  · simp [MeshNode.send_message, MeshNode.init,
      MeshNode.update_network_graph, hca, hfr, EnergyAccount.debit,
      EnergyAccount.can_afford, EnergyAccount.mk0,
      calculate_energy_cost_hello]
    norm_num [calculate_energy_cost_hello]
  · simp [MeshNode.send_message, MeshNode.init,
      MeshNode.update_network_graph, hca, hfr, EnergyAccount.debit,
      EnergyAccount.can_afford, EnergyAccount.mk0, Message.add_hop,
      calculate_energy_cost_hello]
    norm_num

/-- **C4 (code bug).**  `MeshNode.__init__` leaves the energy account's
`relay_multiplier` at 1.0 even for a plugged-in node, so a plugged-in relay
is credited exactly what a non-plugged-in relay is credited (never 1.5×);
moreover the credited amount is 10% of the cost recomputed after `add_hop`
(353/25 = 14.12 for `msgAD`), not 10% of the message's recorded send cost
(`round(100.83/10, 2) = 10.08`). -/
theorem relay_reward_ignores_plugged_in :
    (∀ (cfg : NodeConfig) (g : NetworkGraph) (msg : Message)
       (ack_id : String) (now : ℚ),
      (((MeshNode.init { cfg with is_plugged_in := true
          }).update_network_graph g).receive_message msg ack_id
            now).2.energy_account.balance =
        (((MeshNode.init { cfg with is_plugged_in := false
          }).update_network_graph g).receive_message msg ack_id
            now).2.energy_account.balance) ∧
    ((MeshNode.init ⟨"B", true, true, 100, 1000⟩).receive_message msgAD
        "x" 0).2.energy_account.balance = 1000 + 353/25 ∧
    ((MeshNode.init ⟨"C", true, false, 100, 1000⟩).receive_message msgAD
        "y" 1).2.energy_account.balance = 1000 + 353/25 ∧
    (353/25 : ℚ) ≠ round2 (msgAD.energy_cost * (1/10)) ∧
    (353/25 : ℚ) ≠ (3/2) * (353/25) := by
  refine ⟨?_, ?_, ?_, ?_, by norm_num⟩
  · intro cfg g msg ack_id now
    simp only [MeshNode.receive_message, MeshNode.init,
      MeshNode.update_network_graph, EnergyAccount.mk0,
      EnergyAccount.credit]
    split_ifs <;> simp
  · simp +decide [MeshNode.receive_message, MeshNode.init,
      EnergyAccount.mk0, EnergyAccount.credit, Message.should_relay,
      Message.is_expired, msgAD, reward_msgAD_hop]
    exact reward_msgAD_hop "B"
  · simp +decide [MeshNode.receive_message, MeshNode.init,
      EnergyAccount.mk0, EnergyAccount.credit, Message.should_relay,
      Message.is_expired, msgAD, reward_msgAD_hop]
    exact reward_msgAD_hop "C"
  · simp only [msgAD]
    norm_num [round2]

/-! ## Onion routing (`meshphone/crypto/onion.py`)

The byte-level cryptographic primitives called by `onion.py` come from the
external `cryptography` package (X25519 ECDH via `KeyManager.perform_dh`,
HKDF-SHA256, AES-256-CBC, HMAC-SHA256) and from `json`; the onion code is
embedded over an abstract interface for them, and the round-trip theorem
assumes only their standard contracts (DH commutativity through public
keys, decryption inverting encryption, JSON parse inverting serialise).
The PKCS#7-style padding, in contrast, is implemented inside
`_encrypt_layer`/`_decrypt_layer` and is embedded faithfully. -/

namespace Onion

/-- Byte strings. -/
abbrev Bytes := List Nat

/-- `OnionLayer` from `crypto/onion.py`. -/
structure OnionLayer where
  encrypted_data : Bytes
  iv : Bytes
  mac : Bytes
deriving DecidableEq, Repr

/-- `OnionPacket` from `crypto/onion.py`. -/
structure OnionPacket where
  layers : List OnionLayer
  final_payload : Bytes
deriving DecidableEq, Repr

/-- The routing object `{"next_hop": …, "hop_number": …}` each layer
encrypts. -/
structure RoutingInfo where
  next_hop : String
  hop_number : Nat
deriving DecidableEq, Repr

/-- The external primitives `onion.py` calls: `KeyManager.perform_dh`, key
generation (`pubOf` maps a private key to its public key), the
HKDF-SHA256 with 64-byte output and info `"meshphone_onion_layer"` of
`_derive_layer_keys` (returning the cipher-key/MAC-key split), AES-256-CBC
encryption/decryption of already padded data, HMAC-SHA256, and the JSON
codec for the routing object. -/
structure CryptoPrims where
  perform_dh : Bytes → Bytes → Bytes
  pubOf : Bytes → Bytes
  hkdf64 : Bytes → String → Bytes × Bytes
  aesCbcEnc : Bytes → Bytes → Bytes → Bytes
  aesCbcDec : Bytes → Bytes → Bytes → Bytes
  hmacSha256 : Bytes → Bytes → Bytes
  dumpsRouting : RoutingInfo → Bytes
  loadsRouting : Bytes → Option RoutingInfo

/-- The contracts of the external primitives that the round trip relies
on: ECDH agreement is symmetric through key pairs, CBC decryption inverts
encryption under the same key and IV, and `json.loads` inverts
`json.dumps`. -/
structure CryptoLaws (P : CryptoPrims) : Prop where
  dh_comm : ∀ a b, P.perform_dh a (P.pubOf b) = P.perform_dh b (P.pubOf a)
  dec_enc : ∀ k iv pt, P.aesCbcDec k iv (P.aesCbcEnc k iv pt) = pt
  loads_dumps : ∀ r, P.loadsRouting (P.dumpsRouting r) = some r

/-- The padding done inside `_encrypt_layer`:
`padding_length = 16 - len % 16` (always in 1..16), appended as that many
bytes of that value. -/
def pad16 (pt : Bytes) : Bytes :=
  let padding_length := 16 - pt.length % 16
  pt ++ List.replicate padding_length padding_length

/-- The unpadding done inside `_decrypt_layer`: read the last byte `n` and
drop the last `n` bytes (`padded[:-n]`; Python yields `b""` when `n = 0`
and raises on empty input, which the honest path never reaches). -/
def unpad16 (p : Bytes) : Bytes :=
  match p.getLast? with
  | none => []
  | some n => if n = 0 then [] else p.take (p.length - n)

/-- `OnionRouter._derive_layer_keys`: HKDF with salt = the hop's identity
bytes. -/
def _derive_layer_keys (P : CryptoPrims) (shared_secret : Bytes)
    (hop_id : String) : Bytes × Bytes :=
  P.hkdf64 shared_secret hop_id

/-- `OnionRouter._encrypt_layer` (the random IV `os.urandom(16)` is the
explicit argument `iv`). -/
def _encrypt_layer (P : CryptoPrims) (plaintext cipher_key mac_key iv :
    Bytes) : OnionLayer :=
  let ciphertext := P.aesCbcEnc cipher_key iv (pad16 plaintext)
  { encrypted_data := ciphertext
    iv := iv
    mac := P.hmacSha256 mac_key (iv ++ ciphertext) }

/-- `OnionRouter._decrypt_layer`: verify the MAC over `IV ‖ ciphertext`,
then decrypt and unpad; `none` models the raised verification error. -/
def _decrypt_layer (P : CryptoPrims) (layer : OnionLayer)
    (cipher_key mac_key : Bytes) : Option Bytes :=
  if P.hmacSha256 mac_key (layer.iv ++ layer.encrypted_data) = layer.mac
  then
    some (unpad16 (P.aesCbcDec cipher_key layer.iv layer.encrypted_data))
  else none

/-- The `for i, relay_id in enumerate(relay_nodes)` loop of
`create_onion`: layer `i` (for the `i`-th relay) encrypts
`{"next_hop": relays[i+1] or recipient, "hop_number": i+1}` under keys
derived from DH of the sender's ephemeral private key with that relay's
public key, salted with the relay's id. -/
def onionLayersAux (P : CryptoPrims) (eph_priv : Bytes)
    (route_keys : String → Bytes) (ivs : Nat → Bytes)
    (recipient : String) : List String → Nat → List OnionLayer
  | [], _ => []
  | relay :: rest, i =>
      let next_hop :=
        match rest with
        | [] => recipient
        | r2 :: _ => r2
      let routing_json := P.dumpsRouting ⟨next_hop, i + 1⟩
      let shared := P.perform_dh eph_priv (route_keys relay)
      let keys := _derive_layer_keys P shared relay
      _encrypt_layer P routing_json keys.1 keys.2 (ivs i) ::
        onionLayersAux P eph_priv route_keys ivs recipient rest (i + 1)

/-- `OnionRouter.create_onion`: layers in forward order for
`route[1:-1]`, final payload carried unencrypted alongside.  The sender's
ephemeral private key and the per-layer random IVs are explicit inputs. -/
def create_onion (P : CryptoPrims) (eph_priv : Bytes)
    (route : List String) (route_keys : String → Bytes)
    (final_payload : Bytes) (ivs : Nat → Bytes) : OnionPacket :=
  { layers :=
      onionLayersAux P eph_priv route_keys ivs (route.getLast?.getD "")
        ((route.drop 1).dropLast) 0
    final_payload := final_payload }

/-- `OnionRouter.peel_layer`: with no layers left, report the recipient
case; otherwise derive this relay's keys from DH of its identity private
key with the sender's ephemeral public key, decrypt the leading layer and
return the revealed next hop with the rest of the packet.  `none` models
the `ValueError` raised on MAC/decode failure. -/
def peel_layer (P : CryptoPrims) (identity_priv : Bytes)
    (packet : OnionPacket) (my_node_id : String)
    (sender_public_key : Bytes) : Option (Option String × OnionPacket) :=
  match packet.layers with
  | [] => some (none, packet)
  | our_layer :: remaining_layers =>
      let shared := P.perform_dh identity_priv sender_public_key
      let keys := _derive_layer_keys P shared my_node_id
      match _decrypt_layer P our_layer keys.1 keys.2 with
      | none => none
      | some routing_json =>
          match P.loadsRouting routing_json with
          | none => none
          | some routing_info =>
              some (some routing_info.next_hop,
                { layers := remaining_layers
                  final_payload := packet.final_payload })

/-- `OnionRouter.extract_payload`: only a fully peeled packet yields the
payload (`ValueError` modelled as `none`). -/
def extract_payload (packet : OnionPacket) : Option Bytes :=
  match packet.layers with
  | [] => some packet.final_payload
  | _ => none

/-- Successive peeling along the relay list, collecting the revealed next
hops. -/
def peelChain (P : CryptoPrims) (identity_priv : String → Bytes)
    (sender_public_key : Bytes) :
    List String → OnionPacket → Option (List String × OnionPacket)
  | [], pkt => some ([], pkt)
  | relay :: rest, pkt =>
      match peel_layer P (identity_priv relay) pkt relay
          sender_public_key with
      | some (some nh, pkt2) =>
          match peelChain P identity_priv sender_public_key rest pkt2 with
          | some (nhs, pf) => some (nh :: nhs, pf)
          | none => none
      | _ => none

/-- The next-hop sequence the spec expects the relays to learn:
`relay_2, …, relay_k, recipient`. -/
def expectedNextHops (relays : List String) (recipient : String) :
    List String :=
  match relays with
  | [] => []
  | _ :: rest => rest ++ [recipient]

lemma unpad16_pad16 (pt : Bytes) : unpad16 (pad16 pt) = pt := by
  have hlt : pt.length % 16 < 16 := Nat.mod_lt _ (by omega)
  have hn : 1 ≤ 16 - pt.length % 16 := by omega
  unfold pad16 unpad16
  have hlast : (pt ++ List.replicate (16 - pt.length % 16)
      (16 - pt.length % 16)).getLast? = some (16 - pt.length % 16) := by
    rw [List.getLast?_append_of_ne_nil]
    · rw [List.getLast?_eq_getLast _ (by
        simp [List.replicate, ← List.length_pos]
        omega)]
      simp [List.getLast_replicate]
    · simp [← List.length_pos]
      omega
  rw [hlast]
  simp only [List.length_append, List.length_replicate]
  rw [if_neg (by omega)]
  have : pt.length + (16 - pt.length % 16) - (16 - pt.length % 16) =
      pt.length := by omega
  rw [this, List.take_left]

/-- Peeling the layer built for a relay, with the honestly matching key
material, succeeds and reveals exactly the planted next hop. -/
lemma peel_layer_encrypt (P : CryptoPrims) (L : CryptoLaws P)
    (eph_priv idp : Bytes) (relay : String) (info : RoutingInfo)
    (iv : Bytes) (rest : List OnionLayer) (pl : Bytes) :
    peel_layer P idp
      { layers :=
          _encrypt_layer P (P.dumpsRouting info)
            (_derive_layer_keys P
              (P.perform_dh eph_priv (P.pubOf idp)) relay).1
            (_derive_layer_keys P
              (P.perform_dh eph_priv (P.pubOf idp)) relay).2 iv :: rest
        final_payload := pl } relay (P.pubOf eph_priv) =
      some (some info.next_hop,
        { layers := rest, final_payload := pl }) := by
  simp only [peel_layer, _decrypt_layer, _encrypt_layer,
    _derive_layer_keys]
  rw [L.dh_comm idp eph_priv]
  rw [if_pos rfl, L.dec_enc, unpad16_pad16]
  simp only [L.loads_dumps]

/-- Peeling the onion built by `onionLayersAux` along the relay list, in
route order, reveals `relay_2, …, relay_k, recipient` and ends with the
payload intact. -/
lemma peelChain_onionLayersAux (P : CryptoPrims) (L : CryptoLaws P)
    (identity_priv : String → Bytes) (eph_priv : Bytes)
    (route_keys : String → Bytes) (ivs : Nat → Bytes)
    (recipient : String) :
    ∀ (relays : List String) (i : Nat) (pl : Bytes),
    (∀ r ∈ relays, route_keys r = P.pubOf (identity_priv r)) →
    peelChain P identity_priv (P.pubOf eph_priv) relays
      { layers :=
          onionLayersAux P eph_priv route_keys ivs recipient relays i
        final_payload := pl } =
      some (expectedNextHops relays recipient,
        { layers := [], final_payload := pl }) := by
  intro relays
  induction relays with
  | nil => intro i pl h; rfl
  | cons relay rest ih =>
      intro i pl h
      have hk : route_keys relay = P.pubOf (identity_priv relay) :=
        h relay (List.mem_cons_self _ _)
      simp only [onionLayersAux, peelChain, hk]
      rw [peel_layer_encrypt P L eph_priv (identity_priv relay) relay]
      simp only [ih (i + 1) pl (fun r hr => h r (List.mem_cons_of_mem _ hr))]
      cases rest <;> simp [expectedNextHops]

/-- **C6.**  For every route `[sender, relay₁, …, relayₖ, recipient]`,
key assignment binding each relay's public key to its identity private
key, and sealed payload — and under the standard contracts of the
external crypto primitives — wrapping the payload with `create_onion` and
peeling one layer at each relay in route order yields the next hops
`relay₂, …, relayₖ, recipient` in turn and finally the original sealed
payload; no `peel_layer` step ever modifies the final payload. -/
theorem onion_wrap_peel_roundtrip (P : CryptoPrims) (L : CryptoLaws P)
    (sender recipient : String) (relays : List String)
    (identity_priv : String → Bytes) (eph_priv : Bytes)
    (route_keys : String → Bytes) (ivs : Nat → Bytes)
    (final_payload : Bytes)
    (hkeys : ∀ r ∈ relays, route_keys r = P.pubOf (identity_priv r)) :
    peelChain P identity_priv (P.pubOf eph_priv) relays
        (create_onion P eph_priv (sender :: (relays ++ [recipient]))
          route_keys final_payload ivs) =
      some (expectedNextHops relays recipient,
        { layers := [], final_payload := final_payload }) ∧
    extract_payload { layers := [], final_payload := final_payload } =
      some final_payload ∧
    (∀ (pkt pkt2 : OnionPacket) (idp : Bytes) (nid : String)
       (spk : Bytes) (nh : Option String),
      peel_layer P idp pkt nid spk = some (nh, pkt2) →
      pkt2.final_payload = pkt.final_payload) := by
  refine ⟨?_, rfl, ?_⟩
  · have hroute : ((sender :: (relays ++ [recipient])).drop 1).dropLast =
        relays := by
      simp [List.dropLast_concat]
    have hlast : (sender :: (relays ++ [recipient])).getLast?.getD "" =
        recipient := by
      rw [← List.cons_append, List.getLast?_concat]
      rfl
    unfold create_onion
    rw [hroute, hlast]
    exact peelChain_onionLayersAux P L identity_priv eph_priv route_keys
      ivs recipient relays 0 final_payload hkeys
  · intro pkt pkt2 idp nid spk nh h
    unfold peel_layer at h
    split at h
    · simp only [Option.some.injEq, Prod.mk.injEq] at h
      rw [← h.2]
    · simp only [] at h
      split at h
      · simp at h
      · split at h
        · simp at h
        · simp only [Option.some.injEq, Prod.mk.injEq] at h
          rw [← h.2]

/-- A concrete instantiation of the primitive interface: identity key
pairs, a commutative DH, the identity cipher and a length-prefixed
routing codec.  It satisfies `CryptoLaws`. -/
def toyPrims : CryptoPrims :=
  { perform_dh := fun a b => [a.sum + b.sum]
    pubOf := fun a => a
    hkdf64 := fun s salt => (s ++ salt.toList.map Char.toNat, s)
    aesCbcEnc := fun _ _ pt => pt
    aesCbcDec := fun _ _ ct => ct
    hmacSha256 := fun k m => k ++ m
    dumpsRouting := fun r =>
      r.hop_number :: r.next_hop.length ::
        r.next_hop.toList.map Char.toNat
    loadsRouting := fun bs =>
      match bs with
      | n :: len :: cs =>
          if cs.length = len then
            some ⟨String.mk (cs.map Char.ofNat), n⟩
          else none
      | _ => none }

lemma map_ofNat_toNat (cs : List Char) :
    cs.map (Char.ofNat ∘ Char.toNat) = cs := by
  induction cs with
  | nil => rfl
  | cons c t iht => simp [Char.ofNat_toNat, iht]

lemma toyLaws : CryptoLaws toyPrims := by
  refine ⟨?_, ?_, ?_⟩
  · intro a b
    simp [toyPrims, Nat.add_comm]
  · intro k iv pt
    rfl
  · intro r
    cases r with
    | mk nh hn =>
        have hlen : (nh.toList.map Char.toNat).length = nh.length := by
          rw [List.length_map]
          rfl
        simp only [toyPrims]
        rw [if_pos hlen]
        simp only [List.map_map, Option.some.injEq]
        rw [show nh.toList = nh.data from rfl, map_ofNat_toNat nh.data]

/-- Witness for C6: the route `[A, B, C, D]` with the concrete primitive
instantiation; peeling at `B` then `C` reveals `C` then `D` and delivers
the payload `[9, 9]` intact. -/
theorem onion_wrap_peel_roundtrip_witness :
    peelChain toyPrims (fun r => r.toList.map Char.toNat)
        (toyPrims.pubOf [7]) ["B", "C"]
        (create_onion toyPrims [7] ("A" :: (["B", "C"] ++ ["D"]))
          (fun r => toyPrims.pubOf (r.toList.map Char.toNat)) [9, 9]
          (fun i => [i])) =
      some (expectedNextHops ["B", "C"] "D",
        { layers := [], final_payload := [9, 9] }) ∧
    extract_payload { layers := [], final_payload := [9, 9] } =
      some [9, 9] ∧
    (∀ (pkt pkt2 : OnionPacket) (idp : Bytes) (nid : String)
       (spk : Bytes) (nh : Option String),
      peel_layer toyPrims idp pkt nid spk = some (nh, pkt2) →
      pkt2.final_payload = pkt.final_payload) :=
  onion_wrap_peel_roundtrip toyPrims toyLaws "A" "D" ["B", "C"]
    (fun r => r.toList.map Char.toNat) [7]
    (fun r => toyPrims.pubOf (r.toList.map Char.toNat)) (fun i => [i])
    [9, 9] (fun _ _ => rfl)

end Onion

end Meshphone
